import Mathlib

/-!
# Verification of the reth `Pruner` orchestrator

A shallow embedding of `crates/prune/src/pruner.rs` (the `Pruner` struct and
its `run`, `prune_segments`, `snapshot_segments` and `is_pruning_needed`
methods), together with theorems settling the specification's claims about it.

Machine integers (`u64` block numbers, `usize` limits) are modelled as `Nat`;
Rust's `saturating_sub` on unsigned integers is exactly `Nat` subtraction.
External collaborators (the database provider, the snapshot provider, the
per-category `Segment` deletion implementations) are modelled as an abstract
environment: a state type `δ` for the store together with functions giving the
outcome of each external call, universally quantified in the theorems.
Wall-clock quantities (`Instant::now`, `elapsed`, metrics) are omitted: no
claim is about real time.
-/

/-- Prune segment kinds (data categories): the closed enumeration
`reth_primitives::PruneSegment` as the spec's §3 "Category" lists them:
headers, transaction bodies, receipts, account history, storage history,
sender-recovery caches, plus the transaction-lookup cache. -/
inductive PruneSegment where
  | Headers
  | Transactions
  | Receipts
  | SenderRecovery
  | TransactionLookup
  | AccountHistory
  | StorageHistory
deriving DecidableEq, Repr

/-- Snapshot (cold-archival) segment kinds: the categories for which an
archive boundary may exist (`reth_primitives::SnapshotSegment`). -/
inductive SnapshotSegment where
  | Headers
  | Transactions
  | Receipts
deriving DecidableEq, Repr

/-- Modelled from the spec: `RetentionPolicy` / `PruneMode` (§3, §4.1), a
variant over keep-all, keep-none, keep-last-N-blocks and
keep-before-or-at(block); `reth_primitives::PruneMode` is not under `src/`.
`beforeInclusive b` is the keep-before-or-at(b) policy built by
`PruneMode::before_inclusive`. -/
inductive PruneMode where
  | keepAll
  | keepNone
  | keepLast (n : Nat)
  | beforeInclusive (b : Nat)
deriving DecidableEq, Repr

/-- The error type `PrunerError` (§7 taxonomy): configuration errors from
policy evaluation, store errors, segment errors. The `Nat` codes distinguish
distinct concrete error values of the environment. -/
inductive PrunerError where
  | configError (seg : PruneSegment)
  | storeError (code : Nat)
  | segmentError (code : Nat)
deriving DecidableEq, Repr

/-- Modelled from the spec: `PruneProgress` (§4.4 step 10) — "finished" when
every visited segment was done, otherwise "partial"; the type itself is
declared in `reth_primitives`, not under `src/`. -/
inductive PruneProgress where
  | Finished
  | HasMoreData
deriving DecidableEq, Repr

/-- Modelled from the spec: `PruneProgress::from_done` — "finished" iff the
done flag is `true`. -/
def PruneProgress.fromDone (done : Bool) : PruneProgress :=
  if done then .Finished else .HasMoreData

/-- Modelled from the spec: a persisted checkpoint (§3): block number and an
optional finer-grained position (a transaction index), plus the prune mode it
was produced under (`reth_primitives::PruneCheckpoint`). -/
structure PruneCheckpoint where
  blockNumber : Option Nat
  txNumber : Option Nat
  pruneMode : PruneMode
deriving DecidableEq, Repr

/-- Modelled from the spec: the checkpoint a segment reports from `prune`
before the prune mode is attached (`PruneOutputCheckpoint`). -/
structure SegmentOutputCheckpoint where
  blockNumber : Option Nat
  txNumber : Option Nat
deriving DecidableEq, Repr

/-- Modelled from the spec: attaching the prune mode to a segment's reported
checkpoint (`PruneOutputCheckpoint::as_prune_checkpoint`). -/
def SegmentOutputCheckpoint.asPruneCheckpoint (c : SegmentOutputCheckpoint)
    (m : PruneMode) : PruneCheckpoint :=
  ⟨c.blockNumber, c.txNumber, m⟩

/-- The request handed to a segment's `prune` call
(`segments::PruneInput`): previous checkpoint, target block, budget. -/
structure PruneInput where
  previousCheckpoint : Option PruneCheckpoint
  toBlock : Nat
  deleteLimit : Nat
deriving DecidableEq, Repr

/-- The outcome a segment's `prune` call reports (§3 `PruneOutcome`):
how many entries were deleted, whether the target was reached, and an
optional checkpoint to persist. -/
structure SegmentOutput where
  done : Bool
  pruned : Nat
  checkpoint : Option SegmentOutputCheckpoint
deriving DecidableEq, Repr

/-- Modelled from the spec: `PruneMode::prune_target_block` (§4.1), evaluated
against the tip and the category; not under `src/`. Following §4.1:
keep-all never yields a target; keep-none yields the tip; keep-last-N yields
`tip - N` when `tip > N` (saturating, never underflows) and nothing otherwise;
keep-before-or-at(B) yields `B`, but a boundary referencing a category that
does not support fine-grained checkpoints is malformed and fails with
`ConfigError`. Which categories support fine-grained checkpoints is left open
by the spec, so it is the parameter `fineGrained`. The returned pair carries
the mode itself, which the orchestrator attaches to the persisted
checkpoint. -/
def PruneMode.pruneTargetBlock (fineGrained : PruneSegment → Bool)
    (m : PruneMode) (tip : Nat) (seg : PruneSegment) :
    Except PrunerError (Option (Nat × PruneMode)) :=
  match m with
  | .keepAll => .ok none
  | .keepNone => .ok (some (tip, m))
  | .keepLast n => if n < tip then .ok (some (tip - n, m)) else .ok none
  | .beforeInclusive b =>
      if fineGrained seg then .ok (some (b, m)) else .error (.configError seg)

/-- The behaviour of one `Segment` implementation's effectful methods
(`Segment::prune` and `Segment::save_checkpoint`), abstract over the store
state `δ`: each returns an error or a value together with the mutated
transaction state. -/
structure SegmentBehavior (δ : Type) where
  prune : δ → PruneInput → Except PrunerError (SegmentOutput × δ)
  saveCheckpoint : δ → PruneCheckpoint → Except PrunerError δ

/-- A segment as the orchestrator sees it (`dyn Segment`): its static
category (`Segment::segment`), its optional policy (`Segment::mode`), and its
effectful behaviour. -/
structure SegmentImpl (δ : Type) where
  segment : PruneSegment
  mode : Option PruneMode
  behavior : SegmentBehavior δ

/-- The external environment of a run, abstract over the store state `δ`:
opening the write transaction (`provider_factory.provider_rw`), committing it,
reading a category's checkpoint (`get_prune_checkpoint`), the snapshot
provider's reported highest archived block per category
(`none` models `provider_factory.snapshot_provider()` returning `None`),
the behaviours backing the synthesized `segments::Headers`,
`segments::Transactions` and `segments::Receipts` segments, and which
categories support fine-grained checkpoints (see
`PruneMode.pruneTargetBlock`). -/
structure PruneEnv (δ : Type) where
  providerRw : δ → Except PrunerError δ
  commit : δ → Except PrunerError δ
  getCheckpoint : δ → PruneSegment → Except PrunerError (Option PruneCheckpoint)
  snapshotProvider : Option (SnapshotSegment → Option Nat)
  headersBehavior : PruneMode → SegmentBehavior δ
  transactionsBehavior : PruneMode → SegmentBehavior δ
  receiptsBehavior : PruneMode → SegmentBehavior δ
  fineGrained : PruneSegment → Bool

/-- The pruner's own state and configuration (the fields of `struct Pruner`
that the core algorithm reads or writes; the provider factory, metrics and
listeners live in the environment). -/
structure Pruner (δ : Type) where
  segments : List (SegmentImpl δ)
  minBlockInterval : Nat
  previousTipBlockNumber : Option Nat
  deleteLimit : Nat
  pruneMaxBlocksPerRun : Nat

/-- Run statistics (`PrunerStats = BTreeMap<PruneSegment, (PruneProgress,
usize)>`), modelled as an association list; `statsInsert` has the map's
insert-overwrite semantics. -/
def PrunerStats := List (PruneSegment × PruneProgress × Nat)
deriving DecidableEq

/-- `BTreeMap::insert`: overwrite the value at an existing key, else add the
entry. (Key ordering inside the map is irrelevant to every claim; lookup is
`statsLookup`.) -/
def statsInsert (stats : PrunerStats) (k : PruneSegment)
    (v : PruneProgress × Nat) : PrunerStats :=
  match stats with
  | [] => [(k, v)]
  | (k', v') :: rest =>
      if k' = k then (k, v) :: rest else (k', v') :: statsInsert rest k v

/-- `BTreeMap::get`. -/
def statsLookup (stats : PrunerStats) (k : PruneSegment) :
    Option (PruneProgress × Nat) :=
  match stats with
  | [] => none
  | (k', v') :: rest => if k' = k then some v' else statsLookup rest k

/-- The single event kind the pruner emits:
`PrunerEvent::Finished { tip_block_number, elapsed, stats }` (`elapsed`, a
wall-clock duration, is omitted). -/
inductive PrunerEvent where
  | Finished (tipBlockNumber : Nat) (stats : PrunerStats)
deriving DecidableEq

/-- Ghost record of one successful `Segment::prune` invocation during a run:
the category, the `PruneInput` it received, and the `SegmentOutput` it
returned. Observation only; it does not influence the computation. -/
structure PruneCall where
  segment : PruneSegment
  input : PruneInput
  output : SegmentOutput
deriving DecidableEq

/-- `Pruner::snapshot_segments`: the synthesized archive-boundary segments —
for each of Headers, Transactions, Receipts (in that order), if the snapshot
provider reports a highest archived block `b`, a segment for that category
with policy `PruneMode::before_inclusive b`; no snapshot provider yields no
segments. -/
def snapshotSegments {δ : Type} (env : PruneEnv δ) : List (SegmentImpl δ) :=
  match env.snapshotProvider with
  | none => []
  | some sp =>
      (match sp .Headers with
       | some b => [⟨.Headers, some (.beforeInclusive b),
                     env.headersBehavior (.beforeInclusive b)⟩]
       | none => []) ++
      (match sp .Transactions with
       | some b => [⟨.Transactions, some (.beforeInclusive b),
                     env.transactionsBehavior (.beforeInclusive b)⟩]
       | none => []) ++
      (match sp .Receipts with
       | some b => [⟨.Receipts, some (.beforeInclusive b),
                     env.receiptsBehavior (.beforeInclusive b)⟩]
       | none => [])

/-- The loop body of `Pruner::prune_segments` over the chained segment list:
carries the remaining `delete_limit`, the aggregate `done` flag and the
statistics, and threads the transaction state. Returns the result
(`(stats, remaining delete_limit, progress, final transaction state)` or the
propagated error) paired with the ghost trace of successful prune calls.
Mirrors `pruner.rs` lines 139–185: budget exhausted breaks the loop; a
policy with no target skips the segment; any error from policy evaluation,
checkpoint read, `prune` or `save_checkpoint` propagates (`?`); otherwise
`done` is and-ed, the budget decreases by `pruned` (saturating), and the
stats entry for the category is inserted. -/
def pruneSegmentsLoop {δ : Type} (env : PruneEnv δ) (tip : Nat) :
    List (SegmentImpl δ) → Nat → Bool → PrunerStats → δ →
    Except PrunerError (PrunerStats × Nat × PruneProgress × δ) × List PruneCall
  | [], dl, done, stats, provider =>
      (.ok (stats, dl, .fromDone done, provider), [])
  | seg :: rest, dl, done, stats, provider =>
      if dl = 0 then (.ok (stats, dl, .fromDone done, provider), [])
      else
        match seg.mode with
        | none => pruneSegmentsLoop env tip rest dl done stats provider
        | some mode =>
            match mode.pruneTargetBlock env.fineGrained tip seg.segment with
            | .error e => (.error e, [])
            | .ok none => pruneSegmentsLoop env tip rest dl done stats provider
            | .ok (some (toBlock, pruneMode)) =>
                match env.getCheckpoint provider seg.segment with
                | .error e => (.error e, [])
                | .ok previousCheckpoint =>
                    match seg.behavior.prune provider
                        ⟨previousCheckpoint, toBlock, dl⟩ with
                    | .error e => (.error e, [])
                    | .ok (output, provider') =>
                        match (match output.checkpoint with
                               | some ck => seg.behavior.saveCheckpoint provider'
                                   (ck.asPruneCheckpoint pruneMode)
                               | none => .ok provider') with
                        | .error e =>
                            (.error e,
                             [⟨seg.segment, ⟨previousCheckpoint, toBlock, dl⟩,
                               output⟩])
                        | .ok provider'' =>
                            ((pruneSegmentsLoop env tip rest
                                (dl - output.pruned) (done && output.done)
                                (statsInsert stats seg.segment
                                  (.fromDone output.done, output.pruned))
                                provider'').1,
                             ⟨seg.segment, ⟨previousCheckpoint, toBlock, dl⟩,
                               output⟩ ::
                               (pruneSegmentsLoop env tip rest
                                 (dl - output.pruned) (done && output.done)
                                 (statsInsert stats seg.segment
                                   (.fromDone output.done, output.pruned))
                                 provider'').2)

/-- `Pruner::prune_segments`: chain the synthesized archive-boundary segments
ahead of the configured segments and run the loop with `done = true` and
empty statistics. -/
def pruneSegments {δ : Type} (env : PruneEnv δ) (p : Pruner δ) (tip : Nat)
    (deleteLimit : Nat) (provider : δ) :
    Except PrunerError (PrunerStats × Nat × PruneProgress × δ) × List PruneCall :=
  pruneSegmentsLoop env tip (snapshotSegments env ++ p.segments) deleteLimit
    true [] provider

/-- The observable outcome of one `Pruner::run` call: the pruner state after
the call, the durable store state after the call, the returned
`Result<PruneProgress, PrunerError>`, the events notified to listeners, and
two ghost observations — the prune calls made and the `delete_limit` budget
computed for the run (`none` on the `tip == 0` early return, which computes
no budget). -/
structure RunResult (δ : Type) where
  pruner : Pruner δ
  db : δ
  result : Except PrunerError PruneProgress
  events : List PrunerEvent
  pruneCalls : List PruneCall
  usedDeleteLimit : Option Nat

/-- `blocks_since_last_run` (`pruner.rs` lines 90–97): the tip minus the
previous tip with saturating subtraction (`1` when no previous tip is
recorded), capped by `prune_max_blocks_per_run`. -/
def Pruner.blocksSinceLastRun {δ : Type} (p : Pruner δ) (tip : Nat) : Nat :=
  (match p.previousTipBlockNumber with
   | none => 1
   | some prev => tip - prev).min p.pruneMaxBlocksPerRun

/-- The run's deletion budget (`pruner.rs` line 98): the per-block
`delete_limit` multiplied by `blocks_since_last_run`. -/
def Pruner.runDeleteLimit {δ : Type} (p : Pruner δ) (tip : Nat) : Nat :=
  p.deleteLimit * p.blocksSinceLastRun tip

/-- `Pruner::run` (`pruner.rs` lines 72–123). At `tip == 0` it records the
tip and returns `Finished` before any budget, transaction or event. Otherwise
it computes the deletion budget, opens the write transaction, prunes the
segments, commits, records the tip, and notifies one `Finished` event; any
error propagates before the tip is recorded or the event notified, leaving
the durable store untouched (the uncommitted transaction is discarded). -/
def Pruner.run {δ : Type} (env : PruneEnv δ) (p : Pruner δ) (db : δ)
    (tip : Nat) : RunResult δ :=
  if tip = 0 then
    { pruner := { p with previousTipBlockNumber := some tip }, db := db,
      result := .ok .Finished, events := [], pruneCalls := [],
      usedDeleteLimit := none }
  else
    match env.providerRw db with
    | .error e =>
        { pruner := p, db := db, result := .error e, events := [],
          pruneCalls := [], usedDeleteLimit := some (p.runDeleteLimit tip) }
    | .ok provider =>
        match pruneSegments env p tip (p.runDeleteLimit tip) provider with
        | (.error e, calls) =>
            { pruner := p, db := db, result := .error e, events := [],
              pruneCalls := calls, usedDeleteLimit := some (p.runDeleteLimit tip) }
        | (.ok (stats, _dlRemaining, progress, provider'), calls) =>
            match env.commit provider' with
            | .error e =>
                { pruner := p, db := db, result := .error e, events := [],
                  pruneCalls := calls,
                  usedDeleteLimit := some (p.runDeleteLimit tip) }
            | .ok db' =>
                { pruner := { p with previousTipBlockNumber := some tip },
                  db := db', result := .ok progress,
                  events := [.Finished tip stats], pruneCalls := calls,
                  usedDeleteLimit := some (p.runDeleteLimit tip) }

/-- `Pruner::is_pruning_needed` (`pruner.rs` lines 222–240): `true` when no
previous tip is recorded, or when the tip minus the previous tip — with
saturating subtraction, per the source — reaches `min_block_interval`. Pure:
it reads the state and mutates nothing. -/
def Pruner.isPruningNeeded {δ : Type} (p : Pruner δ) (tip : Nat) : Bool :=
  match p.previousTipBlockNumber with
  | none => true
  | some prev => decide (p.minBlockInterval ≤ tip - prev)

/-- The spec's §4.5 wording of the scheduling gate `should_run`, for
comparison with the source's `Pruner.isPruningNeeded`: the delta
`tip - previous` is computed with plain, non-saturating (wrapping `u64`)
subtraction, so a regressed tip yields a huge unsigned delta. -/
def shouldRunSpec {δ : Type} (p : Pruner δ) (tip : Nat) : Bool :=
  match p.previousTipBlockNumber with
  | none => true
  | some prev =>
      decide (p.minBlockInterval ≤ (tip + 2 ^ 64 - prev) % 2 ^ 64)

/-- Budget chaining along the ghost trace: the first recorded prune call
received exactly the budget `dl`, and each later call received the preceding
call's budget minus what that call pruned (saturating subtraction). -/
def budgetChainedB : Nat → List PruneCall → Bool
  | _, [] => true
  | dl, c :: rest =>
      (c.input.deleteLimit == dl) && budgetChainedB (dl - c.output.pruned) rest

/-! ## Concrete fixtures for witnesses and counterexamples

The store state is a bare `Nat` counting deleted entries. -/

/-- A segment behaviour over the store `Nat`: deletes `k` entries (or the
remaining budget if smaller), reports done exactly when `k` fit in the
budget, reports a checkpoint at the target block, and adds the number of
deletions to the store counter. -/
def countingBehavior (k : Nat) : SegmentBehavior Nat :=
  { prune := fun d input =>
      .ok (⟨decide (k ≤ input.deleteLimit), min k input.deleteLimit,
            some ⟨some input.toBlock, none⟩⟩, d + min k input.deleteLimit)
    saveCheckpoint := fun d _ => .ok d }

/-- An environment over the store `Nat` where every store operation succeeds
and there is no snapshot provider. -/
def okEnv : PruneEnv Nat :=
  { providerRw := fun d => .ok d
    commit := fun d => .ok d
    getCheckpoint := fun _ _ => .ok none
    snapshotProvider := none
    headersBehavior := fun _ => countingBehavior 1
    transactionsBehavior := fun _ => countingBehavior 2
    receiptsBehavior := fun _ => countingBehavior 3
    fineGrained := fun _ => true }

/-- A pruner with a single keep-last-10 account-history segment. -/
def testPruner : Pruner Nat :=
  { segments := [⟨.AccountHistory, some (.keepLast 10), countingBehavior 3⟩]
    minBlockInterval := 5
    previousTipBlockNumber := none
    deleteLimit := 20
    pruneMaxBlocksPerRun := 5 }

/-- The `(progress, pruned)` statistics entry produced by the *last* recorded
prune call for the given category, if any: a later call for the same category
takes precedence over earlier ones (its counts replace theirs — they are not
summed). -/
def lastCallStat (calls : List PruneCall) (cat : PruneSegment) :
    Option (PruneProgress × Nat) :=
  match calls with
  | [] => none
  | c :: rest =>
      match lastCallStat rest cat with
      | some v => some v
      | none =>
          if c.segment = cat then
            some (.fromDone c.output.done, c.output.pruned)
          else none

/-- `okEnv` together with a snapshot provider reporting archive boundaries
for headers (block 5) and receipts (block 7) but not transactions. -/
def snapEnv : PruneEnv Nat :=
  { okEnv with snapshotProvider := some fun s =>
      match s with
      | .Headers => some 5
      | .Transactions => none
      | .Receipts => some 7 }

/-- `okEnv` together with a snapshot provider reporting an archive boundary
for headers only, at block 40. -/
def overwriteEnv : PruneEnv Nat :=
  { okEnv with snapshotProvider := some fun s =>
      match s with
      | .Headers => some 40
      | _ => none }

/-- A pruner whose single configured segment shares the headers category
with the synthesized archive-boundary headers segment of `overwriteEnv`. -/
def overwritePruner : Pruner Nat :=
  { testPruner with segments :=
      [⟨.Headers, some .keepNone, countingBehavior 4⟩] }

/-! ## Helper lemmas -/

/-- In every branch of a `tip ≠ 0` run, the recorded budget is
`runDeleteLimit`. -/
theorem run_usedDeleteLimit {δ : Type} (env : PruneEnv δ) (p : Pruner δ)
    (db : δ) (tip : Nat) (h : tip ≠ 0) :
    (Pruner.run env p db tip).usedDeleteLimit = some (p.runDeleteLimit tip) := by
  unfold Pruner.run
  rw [if_neg h]
  split
  · rfl
  · split
    · rfl
    · split <;> rfl

/-- With a zero budget the segment loop stops at once: no segment is pruned,
the accumulated statistics and `done` flag are returned as they stand. -/
theorem pruneSegmentsLoop_zero {δ : Type} (env : PruneEnv δ) (tip : Nat)
    (segs : List (SegmentImpl δ)) (done : Bool) (stats : PrunerStats)
    (provider : δ) :
    pruneSegmentsLoop env tip segs 0 done stats provider =
      (.ok (stats, 0, .fromDone done, provider), []) := by
  cases segs <;> rfl

/-- **C1.** For every `run(tip)` with `tip > 0`, the deletion budget computed
for that run equals `base_delete_limit * blocks_since_last_run`, where
`blocks_since_last_run = min(tip - previous_tip (saturating; 1 if the
previous tip is unset), prune_max_blocks_per_run)`. -/
theorem claim1_run_budget_formula {δ : Type} (env : PruneEnv δ) (p : Pruner δ)
    (db : δ) (tip : Nat) (h : 0 < tip) :
    (Pruner.run env p db tip).usedDeleteLimit =
      some (p.deleteLimit *
        min (match p.previousTipBlockNumber with
             | none => 1
             | some prev => tip - prev) p.pruneMaxBlocksPerRun) := by
  rw [run_usedDeleteLimit env p db tip (Nat.pos_iff_ne_zero.mp h)]
  rfl

/-- **C1 witness.** The budget formula evaluated on a concrete run. -/
theorem claim1_witness :
    0 < 100 ∧
    (Pruner.run okEnv testPruner 0 100).usedDeleteLimit =
      some (testPruner.deleteLimit *
        min (match testPruner.previousTipBlockNumber with
             | none => 1
             | some prev => 100 - prev) testPruner.pruneMaxBlocksPerRun) :=
  ⟨by decide, claim1_run_budget_formula okEnv testPruner 0 100 (by decide)⟩

/-- **C5.** For every run with `tip > 0`, a previous tip recorded, and the
tip strictly lower than it (a regressed tip), once the store operations
themselves succeed: `blocks_since_last_run` resolves to `0`, the delete
budget is `0`, no segment's `prune` is invoked (zero deletions occur), and
`previous_tip_block_number` is still updated to the lower tip. -/
theorem claim5_regressed_tip_noop {δ : Type} (env : PruneEnv δ) (p : Pruner δ)
    (db : δ) (tip prev : Nat) (hprev : p.previousTipBlockNumber = some prev)
    (htip : 0 < tip) (hlt : tip < prev) (d d' : δ)
    (hrw : env.providerRw db = .ok d) (hcommit : env.commit d = .ok d') :
    p.blocksSinceLastRun tip = 0 ∧
    (Pruner.run env p db tip).usedDeleteLimit = some 0 ∧
    (Pruner.run env p db tip).pruneCalls = [] ∧
    (Pruner.run env p db tip).pruner.previousTipBlockNumber = some tip := by
  have hbs : p.blocksSinceLastRun tip = 0 := by
    unfold Pruner.blocksSinceLastRun
    rw [hprev]
    simp [Nat.sub_eq_zero_of_le (Nat.le_of_lt hlt)]
  have hdl : p.runDeleteLimit tip = 0 := by
    unfold Pruner.runDeleteLimit
    rw [hbs, Nat.mul_zero]
  refine ⟨hbs, ?_, ?_, ?_⟩ <;>
    simp only [Pruner.run, if_neg (Nat.pos_iff_ne_zero.mp htip), hrw,
      pruneSegments, hdl, pruneSegmentsLoop_zero, hcommit]

/-- **C5 witness.** A concrete regressed-tip run: previous tip 10, tip 5. -/
theorem claim5_witness :
    ({ testPruner with previousTipBlockNumber := some 10 } :
        Pruner Nat).blocksSinceLastRun 5 = 0 ∧
    (Pruner.run okEnv { testPruner with previousTipBlockNumber := some 10 } 0
        5).usedDeleteLimit = some 0 ∧
    (Pruner.run okEnv { testPruner with previousTipBlockNumber := some 10 } 0
        5).pruneCalls = [] ∧
    (Pruner.run okEnv { testPruner with previousTipBlockNumber := some 10 } 0
        5).pruner.previousTipBlockNumber = some 5 :=
  claim5_regressed_tip_noop okEnv
    { testPruner with previousTipBlockNumber := some 10 } 0 5 10 rfl
    (by decide) (by decide) 0 0 rfl rfl

/-- **C3 counterexample.** The claim says `should_run` computes
`tip - previous_tip` with plain non-saturating subtraction, so a regressed
tip makes it return `true`. On the source's `is_pruning_needed` this is false
at the concrete state `previous_tip = 10`, `min_block_interval = 5`, queried
at the regressed tip `5`: the saturating delta is `0 < 5` and the source
returns `false`, while the claim's plain-subtraction reading (`shouldRunSpec`)
returns `true`. -/
theorem claim3_counterexample :
    Pruner.isPruningNeeded (δ := Nat)
      { segments := [], minBlockInterval := 5,
        previousTipBlockNumber := some 10, deleteLimit := 0,
        pruneMaxBlocksPerRun := 5 } 5 = false ∧
    shouldRunSpec (δ := Nat)
      { segments := [], minBlockInterval := 5,
        previousTipBlockNumber := some 10, deleteLimit := 0,
        pruneMaxBlocksPerRun := 5 } 5 = true := by
  exact ⟨rfl, by norm_num [shouldRunSpec]⟩

/-- **C3 amended.** `is_pruning_needed(tip)` returns `true` iff
`previous_tip_block_number` is unset or `tip - previous_tip`, computed with
*saturating* subtraction, reaches `min_block_interval`; consequently a
regressed tip (tip strictly below the recorded previous tip) makes it return
`false` whenever `min_block_interval > 0`. The function reads only the
pruner's state and mutates nothing. -/
theorem claim3_amended_saturating_gate {δ : Type} (p : Pruner δ) (tip : Nat) :
    (p.isPruningNeeded tip = true ↔
      (p.previousTipBlockNumber = none ∨
       ∃ prev, p.previousTipBlockNumber = some prev ∧
         p.minBlockInterval ≤ tip - prev)) ∧
    (∀ prev, p.previousTipBlockNumber = some prev → tip < prev →
       0 < p.minBlockInterval → p.isPruningNeeded tip = false) := by
  constructor
  · unfold Pruner.isPruningNeeded
    cases h : p.previousTipBlockNumber with
    | none => simp
    | some prev => simp
  · intro prev hprev hlt hpos
    unfold Pruner.isPruningNeeded
    rw [hprev]
    simp only [decide_eq_false_iff_not, Nat.not_le,
      Nat.sub_eq_zero_of_le (Nat.le_of_lt hlt)]
    exact hpos

/-- **C3 amended witness.** The amended gate at the state of the
counterexample: the regressed tip yields `false`. -/
theorem claim3_witness :
    Pruner.isPruningNeeded (δ := Nat)
      { segments := [], minBlockInterval := 5,
        previousTipBlockNumber := some 10, deleteLimit := 0,
        pruneMaxBlocksPerRun := 5 } 5 = false :=
  (claim3_amended_saturating_gate (δ := Nat)
      { segments := [], minBlockInterval := 5,
        previousTipBlockNumber := some 10, deleteLimit := 0,
        pruneMaxBlocksPerRun := 5 } 5).2 10 rfl (by decide) (by decide)

/-- **C2.** Any error from opening the transaction, from `prune_segments`
(policy evaluation, checkpoint read, a segment's `prune` or
`save_checkpoint`), or from the commit is propagated: `run` returns that
`PrunerError`. An errored run leaves the durable store untouched (nothing
from the run is committed), emits no event, and keeps
`previous_tip_block_number` unchanged — unlike a successful run, which sets
it to the tip. -/
theorem claim2_error_aborts_run {δ : Type} (env : PruneEnv δ) (p : Pruner δ)
    (db : δ) (tip : Nat) (htip : tip ≠ 0) :
    (∀ e, env.providerRw db = .error e →
        (Pruner.run env p db tip).result = .error e) ∧
    (∀ d e calls, env.providerRw db = .ok d →
        pruneSegments env p tip (p.runDeleteLimit tip) d = (.error e, calls) →
        (Pruner.run env p db tip).result = .error e) ∧
    (∀ d stats dl pr d' e calls, env.providerRw db = .ok d →
        pruneSegments env p tip (p.runDeleteLimit tip) d =
          (.ok (stats, dl, pr, d'), calls) →
        env.commit d' = .error e →
        (Pruner.run env p db tip).result = .error e) ∧
    (∀ e, (Pruner.run env p db tip).result = .error e →
        (Pruner.run env p db tip).pruner.previousTipBlockNumber =
          p.previousTipBlockNumber ∧
        (Pruner.run env p db tip).db = db ∧
        (Pruner.run env p db tip).events = []) ∧
    (∀ pr, (Pruner.run env p db tip).result = .ok pr →
        (Pruner.run env p db tip).pruner.previousTipBlockNumber = some tip) := by
  refine ⟨?_, ?_, ?_, ?_, ?_⟩
  · intro e h
    simp only [Pruner.run, if_neg htip, h]
  · intro d e calls h1 h2
    simp only [Pruner.run, if_neg htip, h1, h2]
  · intro d stats dl pr d' e calls h1 h2 h3
    simp only [Pruner.run, if_neg htip, h1, h2, h3]
  · intro e
    unfold Pruner.run
    rw [if_neg htip]
    split
    · exact fun _ => ⟨rfl, rfl, rfl⟩
    · split
      · exact fun _ => ⟨rfl, rfl, rfl⟩
      · split
        · exact fun _ => ⟨rfl, rfl, rfl⟩
        · intro h
          exact absurd h (by simp)
  · intro pr
    unfold Pruner.run
    rw [if_neg htip]
    split
    · intro h
      exact absurd h (by simp)
    · split
      · intro h
        exact absurd h (by simp)
      · split
        · intro h
          exact absurd h (by simp)
        · exact fun _ => rfl

/-- **C2 witness.** A run whose transaction cannot be opened: the error is
returned, the store and the previous tip are unchanged, no event fires. -/
theorem claim2_witness :
    (Pruner.run { okEnv with providerRw := fun _ => .error (.storeError 7) }
        testPruner 0 100).result = .error (.storeError 7) ∧
    (Pruner.run { okEnv with providerRw := fun _ => .error (.storeError 7) }
        testPruner 0 100).pruner.previousTipBlockNumber =
      testPruner.previousTipBlockNumber ∧
    (Pruner.run { okEnv with providerRw := fun _ => .error (.storeError 7) }
        testPruner 0 100).db = 0 ∧
    (Pruner.run { okEnv with providerRw := fun _ => .error (.storeError 7) }
        testPruner 0 100).events = [] := by
  have h := claim2_error_aborts_run
    { okEnv with providerRw := fun _ => .error (.storeError 7) }
    testPruner 0 100 (by decide)
  have h1 := h.1 (.storeError 7) rfl
  have h4 := h.2.2.2.1 (.storeError 7) h1
  exact ⟨h1, h4.1, h4.2.1, h4.2.2⟩

/-- **C4 counterexample.** A malformed policy (`ConfigError` during the first
segment's policy evaluation) is not confined to that segment: at this
concrete input the run returns the `ConfigError` to the caller, and the
following account-history segment — which would have pruned — is never
visited (no prune call is recorded). -/
theorem claim4_counterexample :
    (Pruner.run { okEnv with fineGrained := fun _ => false }
        { testPruner with segments :=
            [⟨.Receipts, some (.beforeInclusive 5), countingBehavior 1⟩,
             ⟨.AccountHistory, some (.keepLast 10), countingBehavior 3⟩] }
        0 100).result = .error (.configError .Receipts) ∧
    (Pruner.run { okEnv with fineGrained := fun _ => false }
        { testPruner with segments :=
            [⟨.Receipts, some (.beforeInclusive 5), countingBehavior 1⟩,
             ⟨.AccountHistory, some (.keepLast 10), countingBehavior 3⟩] }
        0 100).pruneCalls = [] :=
  ⟨rfl, rfl⟩

/-- **C4 amended.** A `ConfigError` from evaluating a segment's retention
policy is *not* confined to that segment: the segment loop stops at the
failing segment with that error, recording no prune call for it or for the
remaining segments, and the run propagates the error to the caller — nothing
is committed, the durable store and `previous_tip_block_number` are
unchanged, and no event fires. -/
theorem claim4_amended_config_error_aborts {δ : Type} (env : PruneEnv δ)
    (tip : Nat) :
    (∀ (seg : SegmentImpl δ) (rest : List (SegmentImpl δ)) (mode : PruneMode)
        (e : PrunerError) (dl : Nat) (done : Bool) (stats : PrunerStats)
        (provider : δ), seg.mode = some mode → dl ≠ 0 →
        mode.pruneTargetBlock env.fineGrained tip seg.segment = .error e →
        pruneSegmentsLoop env tip (seg :: rest) dl done stats provider =
          (.error e, [])) ∧
    (∀ (p : Pruner δ) (db d : δ) (e : PrunerError) (calls : List PruneCall),
        tip ≠ 0 → env.providerRw db = .ok d →
        pruneSegments env p tip (p.runDeleteLimit tip) d = (.error e, calls) →
        (Pruner.run env p db tip).result = .error e ∧
        (Pruner.run env p db tip).db = db ∧
        (Pruner.run env p db tip).pruner.previousTipBlockNumber =
          p.previousTipBlockNumber ∧
        (Pruner.run env p db tip).events = []) := by
  constructor
  · intro seg rest mode e dl done stats provider hmode hdl herr
    simp only [pruneSegmentsLoop, if_neg hdl, hmode, herr]
  · intro p db d e calls htip h1 h2
    refine ⟨?_, ?_, ?_, ?_⟩ <;> simp only [Pruner.run, if_neg htip, h1, h2]

/-- **C4 amended witness.** The amended behaviour on the concrete input of
the counterexample: the loop stops with the `ConfigError` and the run
returns it with state unchanged. -/
theorem claim4_witness :
    pruneSegmentsLoop { okEnv with fineGrained := fun _ => false } 100
        [(⟨.Receipts, some (.beforeInclusive 5), countingBehavior 1⟩ :
            SegmentImpl Nat),
         ⟨.AccountHistory, some (.keepLast 10), countingBehavior 3⟩] 20 true
        [] 0 = (.error (.configError .Receipts), []) ∧
    (Pruner.run { okEnv with fineGrained := fun _ => false }
        { testPruner with segments :=
            [⟨.Receipts, some (.beforeInclusive 5), countingBehavior 1⟩,
             ⟨.AccountHistory, some (.keepLast 10), countingBehavior 3⟩] }
        0 100).result = .error (.configError .Receipts) := by
  have h := claim4_amended_config_error_aborts
    { okEnv with fineGrained := fun _ => false } 100
  refine ⟨?_, ?_⟩
  · exact h.1 ⟨.Receipts, some (.beforeInclusive 5), countingBehavior 1⟩
      [⟨.AccountHistory, some (.keepLast 10), countingBehavior 3⟩]
      (.beforeInclusive 5) (.configError .Receipts) 20 true [] 0 rfl
      (by decide) rfl
  · exact (h.2 { testPruner with segments :=
        [⟨.Receipts, some (.beforeInclusive 5), countingBehavior 1⟩,
         ⟨.AccountHistory, some (.keepLast 10), countingBehavior 3⟩] }
      0 0 (.configError .Receipts) [] (by decide) rfl rfl).1

/-- `BTreeMap` lookup after insert: the inserted key maps to the new value,
every other key is unaffected. -/
theorem statsLookup_insert (stats : PrunerStats) (k q : PruneSegment)
    (v : PruneProgress × Nat) :
    statsLookup (statsInsert stats k v) q =
      if k = q then some v else statsLookup stats q := by
  induction stats with
  | nil => simp [statsInsert, statsLookup]
  | cons kv rest ih =>
    rcases kv with ⟨a, b⟩
    by_cases hak : a = k
    · by_cases haq : a = q
      · have hkq : k = q := hak.symm.trans haq
        simp [statsInsert, statsLookup, hak, haq, hkq]
      · have hkq : ¬ k = q := fun hh => haq (hak.trans hh)
        simp [statsInsert, statsLookup, hak, haq, hkq]
    · by_cases haq : a = q
      · have hkq : ¬ k = q := fun hh => hak (haq.trans hh.symm)
        have hqk : ¬ q = k := fun hh => hkq hh.symm
        simp [statsInsert, statsLookup, hak, haq, hkq, hqk]
      · simp [statsInsert, statsLookup, hak, haq, ih]

/-- The progress a successful segment loop reports is `fromDone` of the
accumulated flag and-ed with the `done` flag of every prune call it made:
segments skipped for lack of a target, and segments never reached because
the budget ran out, contribute nothing. -/
theorem pruneSegmentsLoop_progress {δ : Type} (env : PruneEnv δ) (tip : Nat) :
    ∀ (segs : List (SegmentImpl δ)) (dl : Nat) (done : Bool)
      (stats st : PrunerStats) (dl' : Nat) (pr : PruneProgress)
      (provider provider' : δ),
      (pruneSegmentsLoop env tip segs dl done stats provider).1 =
        .ok (st, dl', pr, provider') →
      pr = .fromDone (done &&
        (pruneSegmentsLoop env tip segs dl done stats provider).2.all
          fun c => c.output.done) := by
  intro segs
  induction segs with
  | nil =>
    intro dl done stats st dl' pr provider provider' h
    simp only [pruneSegmentsLoop, Except.ok.injEq, Prod.mk.injEq] at h ⊢
    obtain ⟨-, -, h3, -⟩ := h
    simp [← h3]
  | cons seg rest ih =>
    intro dl done stats st dl' pr provider provider' h
    rw [pruneSegmentsLoop] at h ⊢
    by_cases hdl : dl = 0
    · rw [if_pos hdl] at h ⊢
      simp only [Except.ok.injEq, Prod.mk.injEq] at h ⊢
      obtain ⟨-, -, h3, -⟩ := h
      simp [← h3]
    · rw [if_neg hdl] at h ⊢
      cases hmode : seg.mode with
      | none =>
        simp only [hmode] at h ⊢
        exact ih _ _ _ _ _ _ _ _ h
      | some mode =>
        simp only [hmode] at h ⊢
        cases htb : mode.pruneTargetBlock env.fineGrained tip seg.segment with
        | error e =>
          simp only [htb] at h
          simp at h
        | ok tbOpt =>
          cases tbOpt with
          | none =>
            simp only [htb] at h ⊢
            exact ih _ _ _ _ _ _ _ _ h
          | some tbPair =>
            rcases tbPair with ⟨toBlock, pruneMode⟩
            simp only [htb] at h ⊢
            cases hck : env.getCheckpoint provider seg.segment with
            | error e =>
              simp only [hck] at h
              simp at h
            | ok previousCheckpoint =>
              simp only [hck] at h ⊢
              cases hpr : seg.behavior.prune provider
                  ⟨previousCheckpoint, toBlock, dl⟩ with
              | error e =>
                simp only [hpr] at h
                simp at h
              | ok outPair =>
                rcases outPair with ⟨output, provider2⟩
                simp only [hpr] at h ⊢
                cases hsv : (match output.checkpoint with
                    | some ck => seg.behavior.saveCheckpoint provider2
                        (ck.asPruneCheckpoint pruneMode)
                    | none => .ok provider2) with
                | error e =>
                  simp only [hsv] at h
                  simp at h
                | ok provider3 =>
                  simp only [hsv] at h ⊢
                  rw [ih _ _ _ _ _ _ _ _ h]
                  simp [Bool.and_assoc]

/-- Budget chaining holds along every trace the segment loop produces: each
recorded call received the budget left by the call before it. -/
theorem pruneSegmentsLoop_chained {δ : Type} (env : PruneEnv δ) (tip : Nat) :
    ∀ (segs : List (SegmentImpl δ)) (dl : Nat) (done : Bool)
      (stats : PrunerStats) (provider : δ),
      budgetChainedB dl
        (pruneSegmentsLoop env tip segs dl done stats provider).2 = true := by
  intro segs
  induction segs with
  | nil => intro dl done stats provider; rfl
  | cons seg rest ih =>
    intro dl done stats provider
    rw [pruneSegmentsLoop]
    split
    · rfl
    · split
      · exact ih _ _ _ _
      · split
        · rfl
        · exact ih _ _ _ _
        · split
          · rfl
          · split
            · rfl
            · split
              · simp [budgetChainedB]
              · simp [budgetChainedB, ih]

/-- The categories of the calls the segment loop makes form a sublist (an
in-order selection) of the categories of the segment list it walks. -/
theorem pruneSegmentsLoop_sublist {δ : Type} (env : PruneEnv δ) (tip : Nat) :
    ∀ (segs : List (SegmentImpl δ)) (dl : Nat) (done : Bool)
      (stats : PrunerStats) (provider : δ),
      ((pruneSegmentsLoop env tip segs dl done stats provider).2.map
        fun c => c.segment).Sublist (segs.map fun s => s.segment) := by
  intro segs
  induction segs with
  | nil => intro dl done stats provider; simp [pruneSegmentsLoop]
  | cons seg rest ih =>
    intro dl done stats provider
    rw [pruneSegmentsLoop]
    split
    · simp
    · split
      · exact List.Sublist.cons _ (ih _ _ _ _)
      · split
        · simp
        · exact List.Sublist.cons _ (ih _ _ _ _)
        · split
          · simp
          · split
            · simp
            · split
              · exact List.Sublist.cons₂ _ (List.nil_sublist _)
              · exact List.Sublist.cons₂ _ (ih _ _ _ _)

/-- The statistics map a successful segment loop returns holds, for each
category, the entry of the last call made for that category — later entries
overwrite earlier ones — falling back to the accumulated map. -/
theorem pruneSegmentsLoop_stats {δ : Type} (env : PruneEnv δ) (tip : Nat) :
    ∀ (segs : List (SegmentImpl δ)) (dl : Nat) (done : Bool)
      (stats st : PrunerStats) (dl' : Nat) (pr : PruneProgress)
      (provider provider' : δ),
      (pruneSegmentsLoop env tip segs dl done stats provider).1 =
        .ok (st, dl', pr, provider') →
      ∀ cat, statsLookup st cat =
        match lastCallStat
            (pruneSegmentsLoop env tip segs dl done stats provider).2 cat with
        | some v => some v
        | none => statsLookup stats cat := by
  intro segs
  induction segs with
  | nil =>
    intro dl done stats st dl' pr provider provider' h cat
    simp only [pruneSegmentsLoop, Except.ok.injEq, Prod.mk.injEq] at h ⊢
    obtain ⟨h1, -, -, -⟩ := h
    simp [← h1, lastCallStat]
  | cons seg rest ih =>
    intro dl done stats st dl' pr provider provider' h cat
    rw [pruneSegmentsLoop] at h ⊢
    by_cases hdl : dl = 0
    · rw [if_pos hdl] at h ⊢
      simp only [Except.ok.injEq, Prod.mk.injEq] at h ⊢
      obtain ⟨h1, -, -, -⟩ := h
      simp [← h1, lastCallStat]
    · rw [if_neg hdl] at h ⊢
      cases hmode : seg.mode with
      | none =>
        simp only [hmode] at h ⊢
        exact ih _ _ _ _ _ _ _ _ h cat
      | some mode =>
        simp only [hmode] at h ⊢
        cases htb : mode.pruneTargetBlock env.fineGrained tip seg.segment with
        | error e =>
          simp only [htb] at h
          simp at h
        | ok tbOpt =>
          cases tbOpt with
          | none =>
            simp only [htb] at h ⊢
            exact ih _ _ _ _ _ _ _ _ h cat
          | some tbPair =>
            rcases tbPair with ⟨toBlock, pruneMode⟩
            simp only [htb] at h ⊢
            cases hck : env.getCheckpoint provider seg.segment with
            | error e =>
              simp only [hck] at h
              simp at h
            | ok previousCheckpoint =>
              simp only [hck] at h ⊢
              cases hpr : seg.behavior.prune provider
                  ⟨previousCheckpoint, toBlock, dl⟩ with
              | error e =>
                simp only [hpr] at h
                simp at h
              | ok outPair =>
                rcases outPair with ⟨output, provider2⟩
                simp only [hpr] at h ⊢
                cases hsv : (match output.checkpoint with
                    | some ck => seg.behavior.saveCheckpoint provider2
                        (ck.asPruneCheckpoint pruneMode)
                    | none => .ok provider2) with
                | error e =>
                  simp only [hsv] at h
                  simp at h
                | ok provider3 =>
                  simp only [hsv] at h ⊢
                  rw [ih _ _ _ _ _ _ _ _ h cat]
                  simp only [lastCallStat]
                  cases hlast : lastCallStat
                      (pruneSegmentsLoop env tip rest (dl - output.pruned)
                        (done && output.done)
                        (statsInsert stats seg.segment
                          (.fromDone output.done, output.pruned))
                        provider3).2 cat with
                  | some v => simp
                  | none =>
                    by_cases hc : seg.segment = cat <;>
                      simp [statsLookup_insert, hc]

/-- `run` at tip `0`: records the tip and returns `Finished` with no budget,
no prune call and no event. -/
theorem run_zero {δ : Type} (env : PruneEnv δ) (p : Pruner δ) (db : δ) :
    Pruner.run env p db 0 =
      { pruner := { p with previousTipBlockNumber := some 0 }, db := db,
        result := .ok .Finished, events := [], pruneCalls := [],
        usedDeleteLimit := none } := rfl

/-- `run` at a nonzero tip, by cases on the outcomes of the store
operations: the transaction fails to open, the segment pass fails, the
commit fails, or everything succeeds. -/
theorem run_eq_cases {δ : Type} (env : PruneEnv δ) (p : Pruner δ) (db : δ)
    (tip : Nat) (htip : tip ≠ 0) :
    (∀ e, env.providerRw db = .error e →
       Pruner.run env p db tip =
         { pruner := p, db := db, result := .error e, events := [],
           pruneCalls := [],
           usedDeleteLimit := some (p.runDeleteLimit tip) }) ∧
    (∀ d e calls, env.providerRw db = .ok d →
       pruneSegments env p tip (p.runDeleteLimit tip) d = (.error e, calls) →
       Pruner.run env p db tip =
         { pruner := p, db := db, result := .error e, events := [],
           pruneCalls := calls,
           usedDeleteLimit := some (p.runDeleteLimit tip) }) ∧
    (∀ d st dl2 pr2 d2 calls e, env.providerRw db = .ok d →
       pruneSegments env p tip (p.runDeleteLimit tip) d =
         (.ok (st, dl2, pr2, d2), calls) →
       env.commit d2 = .error e →
       Pruner.run env p db tip =
         { pruner := p, db := db, result := .error e, events := [],
           pruneCalls := calls,
           usedDeleteLimit := some (p.runDeleteLimit tip) }) ∧
    (∀ d st dl2 pr2 d2 calls db2, env.providerRw db = .ok d →
       pruneSegments env p tip (p.runDeleteLimit tip) d =
         (.ok (st, dl2, pr2, d2), calls) →
       env.commit d2 = .ok db2 →
       Pruner.run env p db tip =
         { pruner := { p with previousTipBlockNumber := some tip }, db := db2,
           result := .ok pr2, events := [.Finished tip st],
           pruneCalls := calls,
           usedDeleteLimit := some (p.runDeleteLimit tip) }) := by
  refine ⟨?_, ?_, ?_, ?_⟩
  · intro e h1
    simp only [Pruner.run, if_neg htip, h1]
  · intro d e calls h1 h2
    simp only [Pruner.run, if_neg htip, h1, h2]
  · intro d st dl2 pr2 d2 calls e h1 h2 h3
    simp only [Pruner.run, if_neg htip, h1, h2, h3]
  · intro d st dl2 pr2 d2 calls db2 h1 h2 h3
    simp only [Pruner.run, if_neg htip, h1, h2, h3]

/-- A run that returns successfully has recorded the tip it was called
with. -/
theorem run_ok_prev {δ : Type} (env : PruneEnv δ) (p : Pruner δ) (db : δ)
    (tip : Nat) (pr : PruneProgress)
    (h : (Pruner.run env p db tip).result = .ok pr) :
    (Pruner.run env p db tip).pruner.previousTipBlockNumber = some tip := by
  by_cases htip : tip = 0
  · subst htip
    rw [run_zero]
  · obtain ⟨h1, h2, h3, h4⟩ := run_eq_cases env p db tip htip
    rcases hrw : env.providerRw db with e | d
    · rw [h1 e hrw] at h
      exact absurd h (by simp)
    · rcases hps : pruneSegments env p tip (p.runDeleteLimit tip) d
        with ⟨res, calls⟩
      cases res with
      | error e =>
        rw [h2 d e calls hrw hps] at h
        exact absurd h (by simp)
      | ok quad =>
        rcases quad with ⟨st, dl2, pr2, d2⟩
        rcases hc : env.commit d2 with e | db2
        · rw [h3 d st dl2 pr2 d2 calls e hrw hps hc] at h
          exact absurd h (by simp)
        · rw [h4 d st dl2 pr2 d2 calls db2 hrw hps hc]

/-- A run at a nonzero tip equal to the recorded previous tip, with
successful store operations, is a complete no-op: zero budget, no prune
calls, `Finished`, one event with empty statistics. -/
theorem run_prev_tip_noop {δ : Type} (env : PruneEnv δ) (p : Pruner δ)
    (db : δ) (tip : Nat) (htip : tip ≠ 0)
    (hprev : p.previousTipBlockNumber = some tip) (d d' : δ)
    (hrw : env.providerRw db = .ok d) (hcommit : env.commit d = .ok d') :
    p.runDeleteLimit tip = 0 ∧
    Pruner.run env p db tip =
      { pruner := { p with previousTipBlockNumber := some tip }, db := d',
        result := .ok .Finished, events := [.Finished tip []],
        pruneCalls := [], usedDeleteLimit := some 0 } := by
  have hdl : p.runDeleteLimit tip = 0 := by
    unfold Pruner.runDeleteLimit Pruner.blocksSinceLastRun
    rw [hprev]
    simp
  have hps : pruneSegments env p tip (p.runDeleteLimit tip) d =
      (.ok ([], 0, .fromDone true, d), []) := by
    rw [hdl]
    exact pruneSegmentsLoop_zero env tip _ _ _ _
  obtain ⟨-, -, -, h4⟩ := run_eq_cases env p db tip htip
  refine ⟨hdl, ?_⟩
  rw [h4 d [] 0 (.fromDone true) d [] d' hrw hps hcommit, hdl]
  rfl

/-- **C6.** The overall progress a successful run returns is "finished"
exactly when the logical AND of every visited segment's `done` flag is true:
the trace of prune calls records exactly the visited segments with a target,
a segment skipped for lack of a target contributes nothing to the AND, and a
segment never visited because the budget was exhausted contributes nothing
either; otherwise the run returns "partial". -/
theorem claim6_progress_is_and_of_done {δ : Type} (env : PruneEnv δ)
    (p : Pruner δ) (db : δ) (tip : Nat) :
    ∀ pr, (Pruner.run env p db tip).result = .ok pr →
      pr = .fromDone ((Pruner.run env p db tip).pruneCalls.all
        fun c => c.output.done) := by
  intro pr h
  by_cases htip : tip = 0
  · subst htip
    rw [run_zero] at h ⊢
    simp only [Except.ok.injEq] at h
    simp [← h, PruneProgress.fromDone]
  · obtain ⟨hcase1, hcase2, hcase3, hcase4⟩ := run_eq_cases env p db tip htip
    rcases hrw : env.providerRw db with e | d
    · rw [hcase1 e hrw] at h
      exact absurd h (by simp)
    · rcases hps : pruneSegments env p tip (p.runDeleteLimit tip) d
        with ⟨res, calls⟩
      cases res with
      | error e =>
        rw [hcase2 d e calls hrw hps] at h
        exact absurd h (by simp)
      | ok quad =>
        rcases quad with ⟨st, dl2, pr2, d2⟩
        rcases hc : env.commit d2 with e | db2
        · rw [hcase3 d st dl2 pr2 d2 calls e hrw hps hc] at h
          exact absurd h (by simp)
        · rw [hcase4 d st dl2 pr2 d2 calls db2 hrw hps hc] at h ⊢
          simp only [Except.ok.injEq] at h
          subst h
          have h1 : (pruneSegmentsLoop env tip
              (snapshotSegments env ++ p.segments)
              (p.runDeleteLimit tip) true [] d).1 = .ok (st, dl2, pr2, d2) :=
            congrArg Prod.fst hps
          have h2 : (pruneSegmentsLoop env tip
              (snapshotSegments env ++ p.segments)
              (p.runDeleteLimit tip) true [] d).2 = calls :=
            congrArg Prod.snd hps
          have h3 := pruneSegmentsLoop_progress env tip _ _ _ _ _ _ _ _ _ h1
          rw [h2] at h3
          simpa using h3

/-- **C6 witness.** A concrete successful run whose single prune call
reported done, so the run reports `Finished` — the AND of the trace. -/
theorem claim6_witness :
    PruneProgress.Finished =
      .fromDone ((Pruner.run okEnv testPruner 0 100).pruneCalls.all
        fun c => c.output.done) :=
  claim6_progress_is_and_of_done okEnv testPruner 0 100 .Finished rfl

/-- **C7.** Segments are visited in a fixed order: the synthesized
archive-boundary segments first, in category order — headers, then
transactions, then receipts, each present exactly when the snapshot provider
reports a boundary for it, with policy keep-before-or-at that boundary —
followed by the user-configured segments in their configured order (the
visited categories form an in-order sublist of that list); and the budget
each recorded call received is the previous call's budget minus what that
call pruned (saturating), starting from the run's computed budget. -/
theorem claim7_segment_order_and_budget_chain {δ : Type} (env : PruneEnv δ)
    (p : Pruner δ) (db : δ) (tip : Nat) :
    (∀ sp, env.snapshotProvider = some sp →
      (snapshotSegments env).map (fun s => (s.segment, s.mode)) =
        (match sp SnapshotSegment.Headers with
         | some b => [(PruneSegment.Headers,
             some (PruneMode.beforeInclusive b))]
         | none => []) ++
        (match sp SnapshotSegment.Transactions with
         | some b => [(PruneSegment.Transactions,
             some (PruneMode.beforeInclusive b))]
         | none => []) ++
        (match sp SnapshotSegment.Receipts with
         | some b => [(PruneSegment.Receipts,
             some (PruneMode.beforeInclusive b))]
         | none => [])) ∧
    ((Pruner.run env p db tip).pruneCalls.map fun c => c.segment).Sublist
      ((snapshotSegments env ++ p.segments).map fun s => s.segment) ∧
    budgetChainedB (p.runDeleteLimit tip)
      (Pruner.run env p db tip).pruneCalls = true := by
  refine ⟨?_, ?_, ?_⟩
  · intro sp hsp
    simp only [snapshotSegments, hsp]
    cases sp SnapshotSegment.Headers <;>
      cases sp SnapshotSegment.Transactions <;>
        cases sp SnapshotSegment.Receipts <;> simp
  all_goals by_cases htip : tip = 0
  · subst htip
    rw [run_zero]
    simp
  · obtain ⟨h1, h2, h3, h4⟩ := run_eq_cases env p db tip htip
    rcases hrw : env.providerRw db with e | d
    · rw [h1 e hrw]
      simp
    · rcases hps : pruneSegments env p tip (p.runDeleteLimit tip) d
        with ⟨res, calls⟩
      have hsub : (calls.map fun c => c.segment).Sublist
          ((snapshotSegments env ++ p.segments).map fun s => s.segment) := by
        have hs := pruneSegmentsLoop_sublist env tip
          (snapshotSegments env ++ p.segments) (p.runDeleteLimit tip) true [] d
        rwa [show (pruneSegmentsLoop env tip
            (snapshotSegments env ++ p.segments) (p.runDeleteLimit tip) true
            [] d).2 = calls from congrArg Prod.snd hps] at hs
      cases res with
      | error e => rw [h2 d e calls hrw hps]; exact hsub
      | ok quad =>
        rcases quad with ⟨st, dl2, pr2, d2⟩
        rcases hc : env.commit d2 with e | db2
        · rw [h3 d st dl2 pr2 d2 calls e hrw hps hc]; exact hsub
        · rw [h4 d st dl2 pr2 d2 calls db2 hrw hps hc]; exact hsub
  · subst htip
    rw [run_zero]
    rfl
  · obtain ⟨h1, h2, h3, h4⟩ := run_eq_cases env p db tip htip
    rcases hrw : env.providerRw db with e | d
    · rw [h1 e hrw]
      rfl
    · rcases hps : pruneSegments env p tip (p.runDeleteLimit tip) d
        with ⟨res, calls⟩
      have hch : budgetChainedB (p.runDeleteLimit tip) calls = true := by
        have hs := pruneSegmentsLoop_chained env tip
          (snapshotSegments env ++ p.segments) (p.runDeleteLimit tip) true [] d
        rwa [show (pruneSegmentsLoop env tip
            (snapshotSegments env ++ p.segments) (p.runDeleteLimit tip) true
            [] d).2 = calls from congrArg Prod.snd hps] at hs
      cases res with
      | error e => rw [h2 d e calls hrw hps]; exact hch
      | ok quad =>
        rcases quad with ⟨st, dl2, pr2, d2⟩
        rcases hc : env.commit d2 with e | db2
        · rw [h3 d st dl2 pr2 d2 calls e hrw hps hc]; exact hch
        · rw [h4 d st dl2 pr2 d2 calls db2 hrw hps hc]; exact hch

/-- **C7 witness.** On an environment whose snapshot provider reports
boundaries for headers and receipts only, the synthesized segments are
exactly headers-then-receipts with keep-before-or-at policies, and a
concrete run's trace respects the order and the budget chain. -/
theorem claim7_witness :
    ((snapshotSegments snapEnv).map fun s => (s.segment, s.mode)) =
      [(PruneSegment.Headers, some (PruneMode.beforeInclusive 5)),
       (PruneSegment.Receipts, some (PruneMode.beforeInclusive 7))] ∧
    ((Pruner.run snapEnv testPruner 0 100).pruneCalls.map
      fun c => c.segment).Sublist
      ((snapshotSegments snapEnv ++ testPruner.segments).map
        fun s => s.segment) ∧
    budgetChainedB (testPruner.runDeleteLimit 100)
      (Pruner.run snapEnv testPruner 0 100).pruneCalls = true := by
  have h := claim7_segment_order_and_budget_chain snapEnv testPruner 0 100
  refine ⟨?_, h.2.1, h.2.2⟩
  rw [h.1 _ rfl]
  rfl

/-- **C8.** Calling `run` twice in succession with the same tip (`tip > 0`)
and no store mutations in between is idempotent: once the first call
succeeded, the second call computes a zero budget, invokes no segment's
`prune` (zero additional deletions), and reports "finished". -/
theorem claim8_idempotent_second_run {δ : Type} (env : PruneEnv δ)
    (p : Pruner δ) (db : δ) (tip : Nat) (htip : 0 < tip) (pr0 : PruneProgress)
    (hok : (Pruner.run env p db tip).result = .ok pr0) (d d' : δ)
    (hrw : env.providerRw (Pruner.run env p db tip).db = .ok d)
    (hcommit : env.commit d = .ok d') :
    (Pruner.run env p db tip).pruner.runDeleteLimit tip = 0 ∧
    (Pruner.run env (Pruner.run env p db tip).pruner
        (Pruner.run env p db tip).db tip).pruneCalls = [] ∧
    (Pruner.run env (Pruner.run env p db tip).pruner
        (Pruner.run env p db tip).db tip).result = .ok .Finished ∧
    (Pruner.run env (Pruner.run env p db tip).pruner
        (Pruner.run env p db tip).db tip).events = [.Finished tip []] := by
  have hprev := run_ok_prev env p db tip pr0 hok
  have hnoop := run_prev_tip_noop env (Pruner.run env p db tip).pruner
    (Pruner.run env p db tip).db tip (Nat.pos_iff_ne_zero.mp htip) hprev d d'
    hrw hcommit
  refine ⟨hnoop.1, ?_, ?_, ?_⟩ <;> rw [hnoop.2]

/-- **C8 witness.** A concrete successful run followed by a second run at
the same tip: the second computes budget `0`, prunes nothing, finishes. -/
theorem claim8_witness :
    (Pruner.run okEnv testPruner 0 100).pruner.runDeleteLimit 100 = 0 ∧
    (Pruner.run okEnv (Pruner.run okEnv testPruner 0 100).pruner
        (Pruner.run okEnv testPruner 0 100).db 100).pruneCalls = [] ∧
    (Pruner.run okEnv (Pruner.run okEnv testPruner 0 100).pruner
        (Pruner.run okEnv testPruner 0 100).db 100).result =
      .ok .Finished ∧
    (Pruner.run okEnv (Pruner.run okEnv testPruner 0 100).pruner
        (Pruner.run okEnv testPruner 0 100).db 100).events =
      [.Finished 100 []] :=
  claim8_idempotent_second_run okEnv testPruner 0 100 (by decide) .Finished
    rfl 3 3 rfl rfl

/-- **C9 counterexample.** The claim says every successful `run` emits
exactly one `Finished` event, "including ... tip_block_number == 0". At the
concrete input `tip = 0` the run returns successfully (`Finished`) but emits
no event at all: the `tip == 0` early return happens before the notify. -/
theorem claim9_counterexample :
    (Pruner.run okEnv testPruner 0 0).result = .ok .Finished ∧
    (Pruner.run okEnv testPruner 0 0).events = [] :=
  ⟨rfl, rfl⟩

/-- **C9 amended.** Every call to `run` with `tip > 0` that returns
successfully emits exactly one `Finished` event carrying the tip it was
called with (this includes no-op runs with a zero budget); a call with
`tip == 0` returns `Finished` successfully but emits no event. -/
theorem claim9_amended_one_event {δ : Type} (env : PruneEnv δ) (p : Pruner δ)
    (db : δ) (tip : Nat) :
    (tip ≠ 0 → ∀ pr, (Pruner.run env p db tip).result = .ok pr →
       ∃ stats, (Pruner.run env p db tip).events = [.Finished tip stats]) ∧
    (tip = 0 → (Pruner.run env p db tip).result = .ok .Finished ∧
       (Pruner.run env p db tip).events = []) := by
  constructor
  · intro htip pr h
    obtain ⟨h1, h2, h3, h4⟩ := run_eq_cases env p db tip htip
    rcases hrw : env.providerRw db with e | d
    · rw [h1 e hrw] at h
      exact absurd h (by simp)
    · rcases hps : pruneSegments env p tip (p.runDeleteLimit tip) d
        with ⟨res, calls⟩
      cases res with
      | error e =>
        rw [h2 d e calls hrw hps] at h
        exact absurd h (by simp)
      | ok quad =>
        rcases quad with ⟨st, dl2, pr2, d2⟩
        rcases hc : env.commit d2 with e | db2
        · rw [h3 d st dl2 pr2 d2 calls e hrw hps hc] at h
          exact absurd h (by simp)
        · rw [h4 d st dl2 pr2 d2 calls db2 hrw hps hc]
          exact ⟨st, rfl⟩
  · intro h0
    subst h0
    rw [run_zero]
    exact ⟨rfl, rfl⟩

/-- **C9 amended witness.** A concrete successful run at tip `100` emits one
`Finished 100` event; a concrete run at tip `0` succeeds with no event. -/
theorem claim9_witness :
    (∃ stats, (Pruner.run okEnv testPruner 0 100).events =
      [.Finished 100 stats]) ∧
    (Pruner.run okEnv testPruner 0 0).result = .ok .Finished ∧
    (Pruner.run okEnv testPruner 0 0).events = [] :=
  ⟨(claim9_amended_one_event okEnv testPruner 0 100).1 (by decide)
      .Finished rfl,
   (claim9_amended_one_event okEnv testPruner 0 0).2 rfl⟩

/-- **C10.** When two visited segments share a category (a synthesized
archive-boundary segment and a configured segment for the same category),
the statistics entry for that category — as carried in the `Finished`
event — holds only the `(progress, pruned_count)` of the *last* such call:
`lastCallStat` picks the last trace entry for the category, so earlier
entries are overwritten, never summed (the earlier deletions still consumed
the shared budget, per the budget chain of C7). -/
theorem claim10_stats_overwrite {δ : Type} (env : PruneEnv δ) (p : Pruner δ)
    (db : δ) (tip : Nat) :
    ∀ tb stats, (Pruner.run env p db tip).events = [.Finished tb stats] →
      ∀ cat, statsLookup stats cat =
        lastCallStat (Pruner.run env p db tip).pruneCalls cat := by
  intro tb stats hev cat
  by_cases htip : tip = 0
  · subst htip
    rw [run_zero] at hev
    exact absurd hev (by simp)
  · obtain ⟨h1, h2, h3, h4⟩ := run_eq_cases env p db tip htip
    rcases hrw : env.providerRw db with e | d
    · rw [h1 e hrw] at hev
      exact absurd hev (by simp)
    · rcases hps : pruneSegments env p tip (p.runDeleteLimit tip) d
        with ⟨res, calls⟩
      cases res with
      | error e =>
        rw [h2 d e calls hrw hps] at hev
        exact absurd hev (by simp)
      | ok quad =>
        rcases quad with ⟨st, dl2, pr2, d2⟩
        rcases hc : env.commit d2 with e | db2
        · rw [h3 d st dl2 pr2 d2 calls e hrw hps hc] at hev
          exact absurd hev (by simp)
        · rw [h4 d st dl2 pr2 d2 calls db2 hrw hps hc] at hev ⊢
          simp only [List.cons.injEq, PrunerEvent.Finished.injEq,
            and_true] at hev
          obtain ⟨-, hst⟩ := hev
          subst hst
          have h1' : (pruneSegmentsLoop env tip
              (snapshotSegments env ++ p.segments)
              (p.runDeleteLimit tip) true [] d).1 = .ok (st, dl2, pr2, d2) :=
            congrArg Prod.fst hps
          have h2' : (pruneSegmentsLoop env tip
              (snapshotSegments env ++ p.segments)
              (p.runDeleteLimit tip) true [] d).2 = calls :=
            congrArg Prod.snd hps
          have h3' := pruneSegmentsLoop_stats env tip _ _ _ _ _ _ _ _ _ h1' cat
          rw [h2'] at h3'
          rw [h3']
          cases lastCallStat calls cat <;> simp [statsLookup]

/-- **C10 witness.** A run where the synthesized headers segment prunes 1
entry and the configured headers segment then prunes 4: the headers
statistics entry carried by the event equals the last call's `(Finished, 4)`
— the earlier call's count is overwritten, not summed to 5. -/
theorem claim10_witness :
    statsLookup [(PruneSegment.Headers, (PruneProgress.Finished, 4))]
        PruneSegment.Headers =
      lastCallStat (Pruner.run overwriteEnv overwritePruner 0 100).pruneCalls
        PruneSegment.Headers ∧
    lastCallStat (Pruner.run overwriteEnv overwritePruner 0 100).pruneCalls
        PruneSegment.Headers = some (PruneProgress.Finished, 4) ∧
    ((Pruner.run overwriteEnv overwritePruner 0 100).pruneCalls.map
      fun c => c.output.pruned) = [1, 4] :=
  ⟨claim10_stats_overwrite overwriteEnv overwritePruner 0 100 100
      [(PruneSegment.Headers, (PruneProgress.Finished, 4))] rfl
      PruneSegment.Headers,
   rfl, rfl⟩
